import Mathlib

/-!
Verification of the Crust reverse-proxy core against its specification.

This file shallowly embeds the Rust source of the Crust proxy (varint codec,
frame compression, packet-id registry, writer task, packet handlers, login
helpers) as executable Lean definitions and proves or refutes the spec claims
about them.  Machine integers are modelled as Nat and Int with explicit
wrap-arounds; byte streams are lists of Nat; fallible operations return
Option.  External libraries used by the source (flate2 zlib streams, the md5
crate) are modelled by parameters characterized through hypotheses, or by the
published algorithm where a concrete value is needed.
-/

/-! ## Machine integer casts

The source works with Rust i32, u32 and usize.  We model i32 values as Int
and u32 or usize values as Nat, with the exact wrapping casts. -/

/-- Rust cast from i32 to u32 (two-complement reinterpretation). -/
def u32OfI32 (i : Int) : Nat := (i % (2 : Int) ^ 32).toNat

/-- Rust cast from u32 to i32 (two-complement reinterpretation). -/
def i32OfU32 (n : Nat) : Int := if n < 2 ^ 31 then (n : Int) else (n : Int) - 2 ^ 32

/-- Rust cast from i32 to usize on a 64-bit target (sign extension). -/
def usizeOfI32 (i : Int) : Nat := (i % (2 : Int) ^ 64).toNat

/-- Rust cast from usize to i32 (truncation to the low 32 bits, reinterpreted). -/
def i32OfUsize (n : Nat) : Int := i32OfU32 (n % 2 ^ 32)

/-! ## VarInt codec, from src/util.rs (impl VarInt)

The source encodes an i32 as its u32 reinterpretation in little-endian
base-128 groups with continuation bit 0x80, and errors with InvalidData when
more than maxBytes bytes would be written or read. -/

namespace VarInt

/-- The encoding loop of VarInt::encode on the u32 reinterpretation.  The
budget argument counts the bytes that may still be written before the
"VarInt too big" error fires; the source checks `bytes > max_bytes` after
emitting each byte. -/
def encodeAux : Nat → Nat → Option (List Nat)
  | _, 0 => none
  | value, budget + 1 =>
    let part := value &&& 0x7F
    let value2 := value >>> 7
    if value2 = 0 then some [part]
    else
      match encodeAux value2 budget with
      | some rest => some ((part ||| 0x80) :: rest)
      | none => none

/-- VarInt::encode: encode the i32 `i` with at most `maxBytes` bytes. -/
def encode (i : Int) (maxBytes : Nat) : Option (List Nat) :=
  encodeAux (u32OfI32 i) maxBytes

/-- The decoding loop of VarInt::decode.  `count` is the number of bytes
consumed so far, `acc` the u32 accumulator; the source computes
`out |= (b & 0x7F) << (bytes * 7)` in u32 arithmetic (hence the mod 2^32),
increments the count, errors when it exceeds `maxBytes`, and stops on a byte
without the 0x80 continuation bit. -/
def decodeAux : List Nat → Nat → Nat → Nat → Option (Nat × List Nat)
  | [], _, _, _ => none
  | b :: rest, count, maxBytes, acc =>
    let acc2 := acc ||| ((b &&& 0x7F) <<< (count * 7) % 2 ^ 32)
    let count2 := count + 1
    if count2 > maxBytes then none
    else if b &&& 0x80 = 0x80 then decodeAux rest count2 maxBytes acc2
    else some (acc2, rest)

/-- VarInt::decode on a byte list; returns the decoded i32 and the remaining
bytes. -/
def decode (src : List Nat) (maxBytes : Nat) : Option (Int × List Nat) :=
  (decodeAux src 0 maxBytes 0).map (fun p => (i32OfU32 p.1, p.2))

/-- VarInt::get_size, from the leading-zero masks in the source. -/
def getSize (i : Int) : Nat :=
  let v := u32OfI32 i
  if v &&& 0xFFFFFF80 = 0 then 1
  else if v &&& 0xFFFFC000 = 0 then 2
  else if v &&& 0xFFE00000 = 0 then 3
  else if v &&& 0xF0000000 = 0 then 4
  else 5

end VarInt

/-- The byte list VarInt::encode produces for a natural below 2 ^ 31 (such a
value is in i32 range and encoding it never hits the 5-byte limit); used to
build concrete wire inputs in the statements below. -/
def varintOf (n : Nat) : List Nat := (VarInt.encodeAux n 5).getD []

/-! ## String and byte-array reads, from src/util.rs (impl EncodingHelper)

Streams are byte lists; a read returns the value and the remaining stream, or
none where the source returns an IO error. -/

/-- read_exact: take exactly `n` bytes from the stream. -/
def readBytes (n : Nat) (src : List Nat) : Option (List Nat × List Nat) :=
  if n ≤ src.length then some (src.take n, src.drop n) else none

/-- A UTF-8 continuation byte, 0x80 to 0xBF. -/
def isUtf8Cont (b : Nat) : Bool := 0x80 ≤ b && b ≤ 0xBF

/-- One step of UTF-8 validation: the list of (lo, hi) ranges the following
bytes of the current sequence must fall in, per the standard table used by
Rust String::from_utf8.  Returns none for an invalid leading byte. -/
def utf8Follow (b : Nat) : Option (List (Nat × Nat)) :=
  if b ≤ 0x7F then some []
  else if 0xC2 ≤ b && b ≤ 0xDF then some [(0x80, 0xBF)]
  else if b = 0xE0 then some [(0xA0, 0xBF), (0x80, 0xBF)]
  else if (0xE1 ≤ b && b ≤ 0xEC) || (0xEE ≤ b && b ≤ 0xEF) then
    some [(0x80, 0xBF), (0x80, 0xBF)]
  else if b = 0xED then some [(0x80, 0x9F), (0x80, 0xBF)]
  else if b = 0xF0 then some [(0x90, 0xBF), (0x80, 0xBF), (0x80, 0xBF)]
  else if 0xF1 ≤ b && b ≤ 0xF3 then some [(0x80, 0xBF), (0x80, 0xBF), (0x80, 0xBF)]
  else if b = 0xF4 then some [(0x80, 0x8F), (0x80, 0xBF), (0x80, 0xBF)]
  else none

/-- UTF-8 validation automaton: `pending` holds the byte ranges still owed by
the sequence in progress. -/
def utf8ValidAux : List Nat → List (Nat × Nat) → Bool
  | [], pending => pending.isEmpty
  | b :: rest, [] =>
    match utf8Follow b with
    | some pending => utf8ValidAux rest pending
    | none => false
  | b :: rest, (lo, hi) :: pending =>
    if lo ≤ b && b ≤ hi then utf8ValidAux rest pending else false

/-- Validity of a byte list as UTF-8, the check String::from_utf8 performs. -/
def utf8Valid (bytes : List Nat) : Bool := utf8ValidAux bytes []

namespace EncodingHelper

/-- EncodingHelper::read_string: a varint byte length, rejected above
`maxLength * 3`, followed by that many bytes which must be valid UTF-8.
The decoded string is returned as its byte list. -/
def readString (src : List Nat) (maxLength : Nat) : Option (List Nat × List Nat) :=
  match VarInt.decode src 5 with
  | none => none
  | some (lenI, rest) =>
    let len := usizeOfI32 lenI
    if len > maxLength * 3 then none
    else
      match readBytes len rest with
      | none => none
      | some (data, rest2) =>
        if utf8Valid data then some (data, rest2) else none

/-- EncodingHelper::read_byte_array: a varint length, rejected above
`maxLength`, followed by that many bytes. -/
def readByteArray (src : List Nat) (maxLength : Nat) : Option (List Nat × List Nat) :=
  match VarInt.decode src 5 with
  | none => none
  | some (lenI, rest) =>
    let len := usizeOfI32 lenI
    if len > maxLength then none else readBytes len rest

/-- EncodingHelper::read_uuid: 16 raw bytes. -/
def readUuid (src : List Nat) : Option (List Nat × List Nat) := readBytes 16 src

end EncodingHelper

/-! ## Protocol states, packet types and the packet-id registry, from
src/server/packets.rs and src/server/packet_ids.rs -/

/-- ProtocolState from src/server/packets.rs. -/
inductive ProtocolState where
  | Handshake
  | Login
  | Config
  | Game
deriving DecidableEq, Fintype

/-- ServerPacketType from src/server/packet_ids.rs. -/
inductive ServerPacketType where
  | LoginDisconnect
  | EncryptionRequest
  | LoginPluginRequest
  | CookieRequest
  | LoginSuccess
  | SetCompression
  | StartConfiguration
  | Kick
  | ServerCustomPayload
  | FinishConfiguration
  | BundleDelimiter
  | SystemChatMessage
  | Commands
  | TabCompleteResponse
deriving DecidableEq, Fintype

/-- ClientPacketType from src/server/packet_ids.rs. -/
inductive ClientPacketType where
  | Handshake
  | LoginRequest
  | EncryptionResponse
  | LoginPluginResponse
  | CookieResponse
  | LoginAcknowledged
  | ClientCustomPayload
  | ConfigurationAck
  | FinishConfiguration
  | ClientSettings
  | UnsignedClientCommand
  | TabCompleteRequest
deriving DecidableEq, Fintype

/-- SUPPORTED_VERSIONS from src/version.rs: 1.20.2 through 1.21.4. -/
def SUPPORTED_VERSIONS : List Int := [764, 765, 766, 767, 768, 769]

/-- The declarative registration tuples of register_packets for
client-to-server packets: for each state and type, the list of
(since-version, wire-byte) pairs in source push order.  Version names from
src/version.rs are expanded to their numeric constants. -/
def clientPacketTable : ProtocolState → ClientPacketType → List (Int × Nat)
  | .Handshake, .Handshake => [(47, 0x00)]
  | .Login, .LoginRequest => [(47, 0x00)]
  | .Login, .EncryptionResponse => [(47, 0x01)]
  | .Login, .LoginPluginResponse => [(393, 0x02)]
  | .Login, .LoginAcknowledged => [(764, 0x03)]
  | .Login, .CookieResponse => [(766, 0x04)]
  | .Config, .ClientSettings => [(764, 0x00)]
  | .Config, .ClientCustomPayload => [(764, 0x01), (766, 0x02)]
  | .Config, .FinishConfiguration => [(764, 0x02), (766, 0x03)]
  | .Game, .ClientSettings => [(762, 0x08), (764, 0x09), (766, 0x0A), (768, 0x0C)]
  | .Game, .UnsignedClientCommand => [(766, 0x04), (768, 0x05)]
  | .Game, .TabCompleteRequest =>
    [(47, 0x14), (107, 0x01), (335, 0x02), (338, 0x01), (393, 0x05), (477, 0x06),
     (759, 0x08), (760, 0x09), (761, 0x08), (762, 0x09), (764, 0x0A), (766, 0x0B),
     (768, 0x0D)]
  | .Game, .ConfigurationAck => [(764, 0x0B), (766, 0x0C), (768, 0x0E)]
  | .Game, .ClientCustomPayload =>
    [(47, 0x17), (107, 0x09), (335, 0x0A), (338, 0x09), (393, 0x0A), (477, 0x0B),
     (755, 0x0A), (759, 0x0C), (760, 0x0D), (761, 0x0C), (762, 0x0D), (764, 0x0F),
     (765, 0x10), (766, 0x12), (768, 0x14)]
  | _, _ => []

/-- The registration tuples of register_packets for server-to-client
packets. -/
def serverPacketTable : ProtocolState → ServerPacketType → List (Int × Nat)
  | .Login, .LoginDisconnect => [(47, 0x00)]
  | .Login, .EncryptionRequest => [(47, 0x01)]
  | .Login, .LoginSuccess => [(47, 0x02)]
  | .Login, .SetCompression => [(47, 0x03)]
  | .Login, .LoginPluginRequest => [(393, 0x04)]
  | .Login, .CookieRequest => [(766, 0x05)]
  | .Config, .CookieRequest => [(766, 0x00)]
  | .Config, .ServerCustomPayload => [(764, 0x00), (766, 0x01)]
  | .Config, .Kick => [(764, 0x01), (766, 0x02)]
  | .Config, .FinishConfiguration => [(764, 0x02), (766, 0x03)]
  | .Game, .CookieRequest => [(766, 0x16)]
  | .Game, .ServerCustomPayload =>
    [(47, 0x3F), (107, 0x18), (393, 0x19), (477, 0x18), (573, 0x19), (735, 0x18),
     (751, 0x17), (755, 0x18), (759, 0x15), (760, 0x16), (761, 0x15), (762, 0x17),
     (764, 0x18), (766, 0x19)]
  | .Game, .Kick =>
    [(47, 0x40), (107, 0x1A), (393, 0x1B), (477, 0x1A), (573, 0x1B), (735, 0x1A),
     (751, 0x19), (755, 0x1A), (759, 0x17), (760, 0x19), (761, 0x17), (762, 0x1A),
     (764, 0x1B), (766, 0x1D)]
  | .Game, .StartConfiguration => [(764, 0x65), (765, 0x67), (766, 0x69), (768, 0x70)]
  | .Game, .SystemChatMessage =>
    [(762, 0x64), (764, 0x67), (765, 0x69), (766, 0x6C), (768, 0x73)]
  | .Game, .BundleDelimiter => [(762, 0x00)]
  | .Game, .Commands =>
    [(393, 0x11), (573, 0x12), (735, 0x11), (751, 0x10), (755, 0x12), (759, 0x0F),
     (761, 0x0E), (762, 0x10), (764, 0x11)]
  | .Game, .TabCompleteResponse =>
    [(47, 0x3A), (107, 0x0E), (393, 0x10), (573, 0x11), (735, 0x10), (751, 0x0F),
     (755, 0x11), (759, 0x0E), (761, 0x0D), (762, 0x0F), (764, 0x10)]
  | _, _ => []

namespace PacketRegistry

/-- Registry lookup, type to wire id.  register_packets materializes, for
each supported version, the last pushed entry whose since-version range
contains the version (it iterates the tuple vector in reverse); for
unsupported versions the map holds nothing. -/
def getClientPacketId (state : ProtocolState) (version : Int)
    (t : ClientPacketType) : Option Int :=
  if version ∈ SUPPORTED_VERSIONS then
    ((clientPacketTable state t).reverse.find? (fun e => decide (e.1 ≤ version))).map
      (fun e => (e.2 : Int))
  else none

/-- Registry lookup, server side, type to wire id. -/
def getServerPacketId (state : ProtocolState) (version : Int)
    (t : ServerPacketType) : Option Int :=
  if version ∈ SUPPORTED_VERSIONS then
    ((serverPacketTable state t).reverse.find? (fun e => decide (e.1 ≤ version))).map
      (fun e => (e.2 : Int))
  else none

/-- The fixed enumerations of the two packet-type enums, used to express the
inverse maps. -/
def allClientPacketTypes : List ClientPacketType :=
  [.Handshake, .LoginRequest, .EncryptionResponse, .LoginPluginResponse,
   .CookieResponse, .LoginAcknowledged, .ClientCustomPayload, .ConfigurationAck,
   .FinishConfiguration, .ClientSettings, .UnsignedClientCommand, .TabCompleteRequest]

def allServerPacketTypes : List ServerPacketType :=
  [.LoginDisconnect, .EncryptionRequest, .LoginPluginRequest, .CookieRequest,
   .LoginSuccess, .SetCompression, .StartConfiguration, .Kick, .ServerCustomPayload,
   .FinishConfiguration, .BundleDelimiter, .SystemChatMessage, .Commands,
   .TabCompleteResponse]

/-- Registry lookup, wire id to type (get_client_packet_type).  The source
first rejects ids outside 0..256, then consults the inverse hash map; that
map associates (state, id, version) with the unique type whose forward entry
is id (the registration tables assign distinct ids within a state and
version, so the hash-map insertion order cannot matter and the inverse is
this search). -/
def getClientPacketType (state : ProtocolState) (version : Int)
    (packetId : Int) : Option ClientPacketType :=
  if 0 ≤ packetId ∧ packetId < 256 then
    allClientPacketTypes.find? (fun t => getClientPacketId state version t == some packetId)
  else none

/-- Registry lookup, server side, wire id to type. -/
def getServerPacketType (state : ProtocolState) (version : Int)
    (packetId : Int) : Option ServerPacketType :=
  if 0 ≤ packetId ∧ packetId < 256 then
    allServerPacketTypes.find? (fun t => getServerPacketId state version t == some packetId)
  else none

end PacketRegistry

/-- Whether the registration table has any entry for this state, type and
version (the condition under which register_packets materializes a map
entry). -/
def clientRegistered (state : ProtocolState) (t : ClientPacketType) (version : Int) : Bool :=
  (clientPacketTable state t).any (fun e => decide (e.1 ≤ version))

def serverRegistered (state : ProtocolState) (t : ServerPacketType) (version : Int) : Bool :=
  (serverPacketTable state t).any (fun e => decide (e.1 ≤ version))

/-- Forward lookup followed by inverse lookup returns the original type. -/
def clientRoundTrips (state : ProtocolState) (version : Int) (t : ClientPacketType) : Bool :=
  match PacketRegistry.getClientPacketId state version t with
  | some id => PacketRegistry.getClientPacketType state version id == some t
  | none => false

def serverRoundTrips (state : ProtocolState) (version : Int) (t : ServerPacketType) : Bool :=
  match PacketRegistry.getServerPacketId state version t with
  | some id => PacketRegistry.getServerPacketType state version id == some t
  | none => false

/-! ## Packet decoders, from src/server/packets.rs -/

/-- The Handshake packet. -/
structure Handshake where
  version : Int
  host : List Nat
  port : Nat
  nextState : Int
deriving DecidableEq

/-- Handshake::decode: varint version, host string with character limit 255,
big-endian u16 port, varint next state. -/
def Handshake.decode (src : List Nat) : Option (Handshake × List Nat) :=
  match VarInt.decode src 5 with
  | none => none
  | some (version, r1) =>
    match EncodingHelper.readString r1 255 with
    | none => none
    | some (host, r2) =>
      match r2 with
      | b1 :: b2 :: r3 =>
        match VarInt.decode r3 5 with
        | none => none
        | some (nextState, r4) => some (⟨version, host, b1 * 256 + b2, nextState⟩, r4)
      | _ => none

/-- PlayerPublicKey from src/server/packets.rs. -/
structure PlayerPublicKey where
  expiry : Nat
  key : List Nat
  signature : List Nat
deriving DecidableEq

/-- Big-endian u64 from 8 bytes. -/
def beU64 (bytes : List Nat) : Nat :=
  bytes.foldl (fun acc b => acc * 256 + b) 0

/-- PlayerPublicKey::decode: u64 expiry, key array limited to 512, signature
array limited to 4096. -/
def PlayerPublicKey.decode (src : List Nat) : Option (PlayerPublicKey × List Nat) :=
  match readBytes 8 src with
  | none => none
  | some (e, r1) =>
    match EncodingHelper.readByteArray r1 512 with
    | none => none
    | some (key, r2) =>
      match EncodingHelper.readByteArray r2 4096 with
      | none => none
      | some (sig, r3) => some (⟨beU64 e, key, sig⟩, r3)

/-- The LoginRequest packet. -/
structure LoginRequest where
  name : List Nat
  publicKey : Option PlayerPublicKey
  uuid : Option (List Nat)
deriving DecidableEq

/-- LoginRequest::decode: username string with character limit 16; a public
key only when 759 ≤ version < 761 and the presence byte is nonzero; a uuid
from version 760 on, unconditionally raw from 764 on and behind a presence
byte below that. -/
def LoginRequest.decode (src : List Nat) (version : Int) : Option (LoginRequest × List Nat) :=
  match EncodingHelper.readString src 16 with
  | none => none
  | some (name, r1) =>
    let pkStep : Option (Option PlayerPublicKey × List Nat) :=
      if 759 ≤ version ∧ version < 761 then
        match r1 with
        | [] => none
        | flag :: r2 =>
          if flag ≠ 0 then
            match PlayerPublicKey.decode r2 with
            | none => none
            | some (pk, r3) => some (some pk, r3)
          else some (none, r2)
      else some (none, r1)
    match pkStep with
    | none => none
    | some (publicKey, r2) =>
      if 760 ≤ version then
        if 764 ≤ version then
          match EncodingHelper.readUuid r2 with
          | none => none
          | some (uuid, r3) => some (⟨name, publicKey, some uuid⟩, r3)
        else
          match r2 with
          | [] => none
          | flag :: r3 =>
            if flag ≠ 0 then
              match EncodingHelper.readUuid r3 with
              | none => none
              | some (uuid, r4) => some (⟨name, publicKey, some uuid⟩, r4)
            else some (⟨name, publicKey, none⟩, r3)
      else some (⟨name, publicKey, none⟩, r2)

/-! ## Compression, from src/server/compression.rs

The zlib streams produced and consumed by flate2 are external to the
repository; they enter the model as a pair of functions: an encoder
`zenc` from payload to stream bytes and a decoder `zdec` from stream bytes
to the full uncompressed content (none on a corrupt stream).  The theorems
take the inverse property as a hypothesis, so they hold for any correct
zlib implementation. -/

/-- compress: below the threshold (an i32 compared through its usize cast)
the output is varint 0 followed by the raw payload; otherwise it is the
varint of the payload length (cast usize to i32) followed by the zlib
stream.  The returned flag is the Ok(false) / Ok(true) of the source. -/
def compress (zenc : List Nat → List Nat) (data : List Nat) (threshold : Int) :
    Option (List Nat × Bool) :=
  if data.length < usizeOfI32 threshold then
    match VarInt.encode 0 5 with
    | none => none
    | some v0 => some (v0 ++ data, false)
  else
    match VarInt.encode (i32OfUsize data.length) 5 with
    | none => none
    | some vl => some (vl ++ zenc data, true)

/-- Read::read_to_end through a SizeLimitedReader: before every read the
reader errors if `remaining` is zero; otherwise it passes through at most
min remaining (chunk step) bytes of the not yet consumed payload, and
read_to_end stops successfully when the inner reader is exhausted.  `chunk`
gives the (positive) buffer space read_to_end offers on each call. -/
def readToEnd (chunk : Nat → Nat) (step : Nat) (payload : List Nat) (remaining : Nat) :
    Option (List Nat) :=
  if remaining = 0 then none
  else
    let k := min (min remaining (chunk step)) payload.length
    if k = 0 then some []
    else
      match readToEnd chunk (step + 1) (payload.drop k) (remaining - k) with
      | none => none
      | some tail => some (payload.take k ++ tail)
termination_by payload.length
decreasing_by
  simp only [List.length_drop]
  omega

/-- decompress: read the varint data length (as usize); zero means the rest
of the frame is the raw payload; otherwise inflate the rest through a
SizeLimitedReader capped at 8 MiB.  The source never compares the decoded
content against the announced length beyond the zero test. -/
def decompress (zdec : List Nat → Option (List Nat)) (chunk : Nat → Nat)
    (data : List Nat) : Option (List Nat) :=
  match VarInt.decode data 5 with
  | none => none
  | some (lenI, rest) =>
    if usizeOfI32 lenI = 0 then some rest
    else
      match zdec rest with
      | none => none
      | some content => readToEnd chunk 0 content (8 * 1024 * 1024)

/-- A minimal stand-in for the external flate2 codec, used only to
instantiate the codec parameters at concrete inputs: the stream is the
payload behind the 0x78 zlib header byte.  It satisfies the inverse
hypothesis of the compression theorems and, like real zlib, produces a
nonempty stream for the empty payload. -/
def zencModel (data : List Nat) : List Nat := 0x78 :: data

def zdecModel : List Nat → Option (List Nat)
  | 0x78 :: rest => some rest
  | _ => none

/-! ## The per-half writer task, from src/server/proxy_handler.rs (fn handle,
write_task closure)

The task consumes PacketSending commands from its channel and writes frames
to the socket.  Writes are abstracted to events; whether the i-th write
succeeds is an oracle argument, modelling I/O errors.  The run function
returns the events produced and why the loop ended. -/

/-- PacketSending from src/server/proxy_handler.rs.  The Sync oneshot is
abstracted away; signalling it is an event. -/
inductive PacketSending where
  | packet (bytes : List Nat) (bypass : Bool)
  | sync
  | dropRedundant (drop : Bool)
  | bundleReceived
  | startConfig (version : Int)
  | startGame (version : Int)
deriving DecidableEq

inductive WriterEvent where
  | wrote (bytes : List Nat)
  | synced
deriving DecidableEq

/-- Why the write_task loop ended.  channelClosed is recv returning None,
writeError an encode_and_send_packet failure; droppedPacket is the `break`
in the Packet arm when the drop gate is set, and panicked the unreachable
in the StartGame arm. -/
inductive WriterExit where
  | channelClosed
  | writeError
  | droppedPacket
  | panicked
deriving DecidableEq

structure WriterState where
  dropRedundant : Bool
  inBundle : Bool
  writeCount : Nat
deriving DecidableEq

/-- The varint-encoded packet id written by the StartConfig and StartGame
arms (VarInt(packet_id).encode(.., 5).unwrap()). -/
def pidBytes (pid : Int) : List Nat := (VarInt.encode pid 5).getD []

/-- The write_task loop.  Each arm mirrors the match in the source; `io i`
tells whether the i-th write to the socket succeeds. -/
def writerRun (io : Nat → Bool) : List PacketSending → WriterState →
    List WriterEvent × WriterExit
  | [], _ => ([], .channelClosed)
  | cmd :: rest, st =>
    match cmd with
    | .packet bytes bypass =>
      if st.dropRedundant && !bypass then ([], .droppedPacket)
      else if io st.writeCount then
        let r := writerRun io rest ⟨st.dropRedundant, st.inBundle, st.writeCount + 1⟩
        (.wrote bytes :: r.1, r.2)
      else ([], .writeError)
    | .sync =>
      let r := writerRun io rest st
      (.synced :: r.1, r.2)
    | .dropRedundant d => writerRun io rest ⟨d, st.inBundle, st.writeCount⟩
    | .bundleReceived =>
      if io st.writeCount then
        let r := writerRun io rest ⟨st.dropRedundant, !st.inBundle, st.writeCount + 1⟩
        (.wrote [0] :: r.1, r.2)
      else ([], .writeError)
    | .startConfig version =>
      if st.inBundle then
        if io st.writeCount then
          match PacketRegistry.getServerPacketId .Game version .StartConfiguration with
          | some pid =>
            if io (st.writeCount + 1) then
              let r := writerRun io rest ⟨st.dropRedundant, false, st.writeCount + 2⟩
              (.wrote [0] :: .wrote (pidBytes pid) :: r.1, r.2)
            else ([.wrote [0]], .writeError)
          | none =>
            let r := writerRun io rest ⟨st.dropRedundant, false, st.writeCount + 1⟩
            (.wrote [0] :: r.1, r.2)
        else ([], .writeError)
      else
        match PacketRegistry.getServerPacketId .Game version .StartConfiguration with
        | some pid =>
          if io st.writeCount then
            let r := writerRun io rest ⟨st.dropRedundant, st.inBundle, st.writeCount + 1⟩
            (.wrote (pidBytes pid) :: r.1, r.2)
          else ([], .writeError)
        | none => writerRun io rest st
    | .startGame version =>
      if st.inBundle then ([], .panicked)
      else
        match PacketRegistry.getServerPacketId .Config version .FinishConfiguration with
        | some pid =>
          if io st.writeCount then
            let r := writerRun io rest ⟨st.dropRedundant, st.inBundle, st.writeCount + 1⟩
            (.wrote (pidBytes pid) :: r.1, r.2)
          else ([], .writeError)
        | none => writerRun io rest st

/-! ## The switch orchestrator, from src/server/mod.rs
(ProxiedPlayer::switch_server)

The synchronized network phase of switch_server, after the new backend is
connected, as the sequence of actions it performs.  The branch condition is
transcribed from line 540 of the source: the extra goto_game round-trip runs
when the client handle is in the Config protocol state. -/

inductive SwitchAction where
  | dropRedundant (drop : Bool)
  | disconnectOldServer
  | waitOldServerDisconnect
  | gotoGame (version : Int)
  | waitGameAck
  | sleepMillis (millis : Nat)
  | gotoConfig (version : Int)
  | waitConfigAck
deriving DecidableEq

/-- The action sequence of the braced network block of switch_server:
enable the drop gate, tear down the old server handle if present, bounce
through goto_game with a 100 ms settle delay when the client is in Config,
then goto_config, wait for the configuration acknowledgement and release
the gate. -/
def switchServerNetworkPhase (clientState : ProtocolState) (hasOldServer : Bool)
    (version : Int) : List SwitchAction :=
  [.dropRedundant true]
    ++ (if hasOldServer then [.disconnectOldServer, .waitOldServerDisconnect] else [])
    ++ (if clientState = ProtocolState.Config then
          [.gotoGame version, .waitGameAck, .sleepMillis 100] else [])
    ++ [.gotoConfig version, .waitConfigAck, .dropRedundant false]

/-! ## The client packet handler, from src/server/packet_handler.rs
(ClientPacketHandler::handle_packet)

Only the control effects the claims are about are modelled: the protocol
state stored back into the handle, which Notify one-shots are fired, and
whether the packet is forwarded (the Ok(true) / Ok(false) return).  The
arms for ClientSettings, ClientCustomPayload, UnsignedClientCommand and
TabCompleteRequest cache or dispatch through collaborators and are mapped
to the default effect; no arm of the source, there or elsewhere, calls
notify_one on game_ack_notify. -/

structure ClientHandlerEffects where
  newProtocolState : Option ProtocolState
  firesConfigAckNotify : Bool
  firesGameAckNotify : Bool
  forward : Bool
deriving DecidableEq

def ClientPacketHandler.handlePacket (state : ProtocolState) (version : Int)
    (packetId : Int) (isSwitching : Bool) : ClientHandlerEffects :=
  match PacketRegistry.getClientPacketType state version packetId with
  | some ClientPacketType.FinishConfiguration =>
    ⟨some ProtocolState.Game, false, false, true⟩
  | some ClientPacketType.ConfigurationAck =>
    if isSwitching then ⟨some ProtocolState.Config, true, false, false⟩
    else ⟨some ProtocolState.Config, false, false, true⟩
  | _ => ⟨none, false, false, true⟩

/-! ## Offline UUID derivation, from src/util.rs (generate_uuid) and
src/server/initial_handler.rs (the offline finalize of handle_login)

generate_uuid feeds "OfflinePlayer:" followed by the username through the
md5 crate and stamps the digest with the version-3 and RFC-4122 bits via
uuid::Builder::from_md5_bytes.  The md5 crate is external to the
repository; it is modelled by the MD5 algorithm it implements (RFC 1321),
executable below on byte lists. -/

/-- Little-endian byte decomposition, `k` bytes. -/
def leBytes : Nat → Nat → List Nat
  | 0, _ => []
  | k + 1, n => n % 256 :: leBytes k (n / 256)

/-- The little-endian 32-bit word of a block starting at byte `i`. -/
def leWord (block : List Nat) (i : Nat) : Nat :=
  block.getD i 0 + 256 * block.getD (i + 1) 0 + 65536 * block.getD (i + 2) 0
    + 16777216 * block.getD (i + 3) 0

/-- MD5 round constants, floor (abs (sin (i + 1)) * 2 ^ 32). -/
def md5K : List Nat :=
  [0xD76AA478, 0xE8C7B756, 0x242070DB, 0xC1BDCEEE, 0xF57C0FAF, 0x4787C62A, 0xA8304613, 0xFD469501,
   0x698098D8, 0x8B44F7AF, 0xFFFF5BB1, 0x895CD7BE, 0x6B901122, 0xFD987193, 0xA679438E, 0x49B40821,
   0xF61E2562, 0xC040B340, 0x265E5A51, 0xE9B6C7AA, 0xD62F105D, 0x02441453, 0xD8A1E681, 0xE7D3FBC8,
   0x21E1CDE6, 0xC33707D6, 0xF4D50D87, 0x455A14ED, 0xA9E3E905, 0xFCEFA3F8, 0x676F02D9, 0x8D2A4C8A,
   0xFFFA3942, 0x8771F681, 0x6D9D6122, 0xFDE5380C, 0xA4BEEA44, 0x4BDECFA9, 0xF6BB4B60, 0xBEBFBC70,
   0x289B7EC6, 0xEAA127FA, 0xD4EF3085, 0x04881D05, 0xD9D4D039, 0xE6DB99E5, 0x1FA27CF8, 0xC4AC5665,
   0xF4292244, 0x432AFF97, 0xAB9423A7, 0xFC93A039, 0x655B59C3, 0x8F0CCC92, 0xFFEFF47D, 0x85845DD1,
   0x6FA87E4F, 0xFE2CE6E0, 0xA3014314, 0x4E0811A1, 0xF7537E82, 0xBD3AF235, 0x2AD7D2BB, 0xEB86D391]

/-- MD5 per-round left-rotation amounts. -/
def md5S : List Nat :=
  [7, 12, 17, 22, 7, 12, 17, 22, 7, 12, 17, 22, 7, 12, 17, 22,
   5, 9, 14, 20, 5, 9, 14, 20, 5, 9, 14, 20, 5, 9, 14, 20,
   4, 11, 16, 23, 4, 11, 16, 23, 4, 11, 16, 23, 4, 11, 16, 23,
   6, 10, 15, 21, 6, 10, 15, 21, 6, 10, 15, 21, 6, 10, 15, 21]

/-- 32-bit left rotation. -/
def rotl32 (x s : Nat) : Nat := ((x <<< s) ||| (x >>> (32 - s))) % 2 ^ 32

/-- 32-bit complement. -/
def not32 (x : Nat) : Nat := 0xFFFFFFFF ^^^ x

/-- One MD5 round applied to the working state (a, b, c, d). -/
def md5Round (block : List Nat) (i : Nat) : Nat × Nat × Nat × Nat → Nat × Nat × Nat × Nat
  | (a, b, c, d) =>
    let f :=
      if i < 16 then (b &&& c) ||| (not32 b &&& d)
      else if i < 32 then (d &&& b) ||| (not32 d &&& c)
      else if i < 48 then b ^^^ c ^^^ d
      else c ^^^ (b ||| not32 d)
    let g :=
      if i < 16 then i
      else if i < 32 then (5 * i + 1) % 16
      else if i < 48 then (3 * i + 5) % 16
      else (7 * i) % 16
    let f2 := (f + a + md5K.getD i 0 + leWord block (4 * g)) % 2 ^ 32
    (d, (b + rotl32 f2 (md5S.getD i 0)) % 2 ^ 32, b, c)

/-- Process one 64-byte block: run the 64 rounds and add the result into the
running state. -/
def md5ProcessBlock (st : Nat × Nat × Nat × Nat) (block : List Nat) :
    Nat × Nat × Nat × Nat :=
  let r := (List.range 64).foldl (fun acc i => md5Round block i acc) st
  ((st.1 + r.1) % 2 ^ 32, (st.2.1 + r.2.1) % 2 ^ 32,
   (st.2.2.1 + r.2.2.1) % 2 ^ 32, (st.2.2.2 + r.2.2.2) % 2 ^ 32)

/-- Consume the padded message 64 bytes at a time.  The fuel starts at the
padded length, which bounds the number of blocks. -/
def md5Loop : Nat → List Nat → Nat × Nat × Nat × Nat → Nat × Nat × Nat × Nat
  | 0, _, st => st
  | _, [], st => st
  | fuel + 1, bytes, st => md5Loop fuel (bytes.drop 64) (md5ProcessBlock st (bytes.take 64))

/-- MD5 padding: 0x80, zeros to 56 mod 64, then the bit length as a
little-endian u64. -/
def md5Pad (msg : List Nat) : List Nat :=
  let padLen := (120 - (msg.length + 1) % 64) % 64
  msg ++ [0x80] ++ List.replicate padLen 0 ++ leBytes 8 (msg.length * 8 % 2 ^ 64)

/-- The MD5 digest of a byte list, 16 bytes. -/
def md5 (msg : List Nat) : List Nat :=
  let padded := md5Pad msg
  let r := md5Loop padded.length padded (0x67452301, 0xEFCDAB89, 0x98BADCFE, 0x10325476)
  leBytes 4 r.1 ++ leBytes 4 r.2.1 ++ leBytes 4 r.2.2.1 ++ leBytes 4 r.2.2.2

/-- UTF-8 encoding of one scalar value, as String bytes in Rust. -/
def utf8EncodeChar (c : Char) : List Nat :=
  let v := c.val.toNat
  if v < 0x80 then [v]
  else if v < 0x800 then [0xC0 ||| (v >>> 6), 0x80 ||| (v &&& 0x3F)]
  else if v < 0x10000 then
    [0xE0 ||| (v >>> 12), 0x80 ||| ((v >>> 6) &&& 0x3F), 0x80 ||| (v &&& 0x3F)]
  else
    [0xF0 ||| (v >>> 18), 0x80 ||| ((v >>> 12) &&& 0x3F),
     0x80 ||| ((v >>> 6) &&& 0x3F), 0x80 ||| (v &&& 0x3F)]

/-- UTF-8 encoding of a character sequence. -/
def utf8Encode (s : List Char) : List Nat := (s.map utf8EncodeChar).flatten

/-- The character sequence of the literal prepended by generate_uuid. -/
def offlinePlayerTag : List Char :=
  ['O', 'f', 'f', 'l', 'i', 'n', 'e', 'P', 'l', 'a', 'y', 'e', 'r', ':']

/-- uuid::Builder::from_md5_bytes: stamp byte 6 with version 3 and byte 8
with the RFC-4122 variant, bitwise as the uuid crate does. -/
def builderFromMd5Bytes (digest : List Nat) : List Nat :=
  digest.mapIdx (fun i b =>
    if i = 6 then (b &&& 0x0F) ||| 0x30
    else if i = 8 then (b &&& 0x3F) ||| 0x80
    else b)

/-- generate_uuid from src/util.rs: the 16 UUID bytes for a username. -/
def generate_uuid (username : List Char) : List Nat :=
  builderFromMd5Bytes (md5 (utf8Encode (offlinePlayerTag ++ username)))

/-- The version-3 name-based UUID as the spec words it: the md5 digest of
"OfflinePlayer:" followed by the name, with the high nibble of byte 6
replaced by the version number 3 and the top two bits of byte 8 replaced by
the variant pattern 10.  Written arithmetically, independent of the bitwise
route the source takes. -/
def specUuidV3OfName (name : List Char) : List Nat :=
  (md5 (utf8Encode (offlinePlayerTag ++ name))).mapIdx (fun i b =>
    if i = 6 then 3 * 16 + b % 16
    else if i = 8 then 2 * 64 + b % 64
    else b)

/-- Lowercase hex digit. -/
def hexDigit (n : Nat) : Char :=
  if n < 10 then Char.ofNat (48 + n) else Char.ofNat (87 + n)

def byteHex (b : Nat) : List Char := [hexDigit (b / 16), hexDigit (b % 16)]

/-- The hyphenated lowercase rendering of 16 UUID bytes, as uuid::Uuid
Display (to_string in the source). -/
def uuidToString (bytes : List Nat) : List Char :=
  ((bytes.take 4).map byteHex).flatten ++ ['-']
    ++ (((bytes.drop 4).take 2).map byteHex).flatten ++ ['-']
    ++ (((bytes.drop 6).take 2).map byteHex).flatten ++ ['-']
    ++ (((bytes.drop 8).take 2).map byteHex).flatten ++ ['-']
    ++ ((bytes.drop 10).map byteHex).flatten

/-- GameProfile from src/auth/mod.rs (strings as character lists). -/
structure Property where
  name : List Char
  value : List Char
  signature : Option (List Char)
deriving DecidableEq

structure GameProfile where
  id : List Char
  name : List Char
  properties : List Property
deriving DecidableEq

/-- The offline profile handle_login builds in the LoginRequest arm when no
session authentication runs: the stringified derived uuid, the requested
name, and no properties (src/server/initial_handler.rs lines 196 to 200). -/
def offlineGameProfile (username : List Char) : GameProfile :=
  ⟨uuidToString (generate_uuid username), username, []⟩

/-! ## Username validation, from src/util.rs (is_username_valid) -/

/-- char::is_ascii_alphanumeric. -/
def isAsciiAlphanumeric (c : Char) : Bool :=
  let v := c.val.toNat
  (0x41 ≤ v && v ≤ 0x5A) || (0x61 ≤ v && v ≤ 0x7A) || (0x30 ≤ v && v ≤ 0x39)

/-- str::len counts UTF-8 bytes; this is the byte length of a character
sequence. -/
def utf8Len (s : List Char) : Nat := (s.map (fun c => (utf8EncodeChar c).length)).sum

/-- is_username_valid: nonempty, at most 16 UTF-8 bytes, and every character
ASCII alphanumeric or underscore. -/
def is_username_valid (s : List Char) : Bool :=
  !s.isEmpty && utf8Len s ≤ 16 && s.all (fun c => isAsciiAlphanumeric c || c == '_')

/-! ## Theorems -/

/-- C1: evaluation of the writer-task loop at the failing input.  The claim
says a Packet command with the drop gate set and bypass false is silently
dropped and the loop continues, exiting only when the channel closes or a
write fails.  The source instead executes `break`: on the gated packet the
loop ends at once with no write error and no closed channel, and the
subsequent bypass packet is never processed.  The second conjunct shows the
same queue without the gated packet runs to the end of the channel and
writes the bypass packet, isolating the gated packet as the cause. -/
theorem writerTask_gated_packet_exits_loop :
    writerRun (fun _ => true)
        [PacketSending.dropRedundant true, PacketSending.packet [1] false,
         PacketSending.packet [2] true] ⟨false, false, 0⟩
      = ([], WriterExit.droppedPacket)
    ∧ writerRun (fun _ => true)
        [PacketSending.dropRedundant true, PacketSending.packet [2] true] ⟨false, false, 0⟩
      = ([WriterEvent.wrote [2]], WriterExit.channelClosed) := by
  exact ⟨rfl, rfl⟩

/-- C2 counterexample: the claim places the goto_game round-trip in the
branch where the client is in the Game state; in the source the branch
condition (mod.rs line 540) is equality with Config, so the Game trace has
no gotoGame action while the Config trace does. -/
theorem switchServer_gotoGame_absent_in_game_trace :
    SwitchAction.gotoGame 764 ∉ switchServerNetworkPhase ProtocolState.Game true 764
    ∧ SwitchAction.gotoGame 764 ∈ switchServerNetworkPhase ProtocolState.Config true 764 := by
  decide

/-- C2 amended: after connecting the new backend, the orchestrator enables
the drop gate and tears down the old server handle; then, when the client is
currently in Config, it emits goto_game, waits on game_ack_notify, sleeps
100 ms, and only then emits goto_config, waits on config_ack_notify and
releases the gate; when the client is currently in Game it emits goto_config
directly, with no extra transition. -/
theorem switchServer_network_phase_traces (hasOld : Bool) (v : Int) :
    switchServerNetworkPhase ProtocolState.Config hasOld v =
      [SwitchAction.dropRedundant true]
        ++ (if hasOld then
              [SwitchAction.disconnectOldServer, SwitchAction.waitOldServerDisconnect]
            else [])
        ++ [SwitchAction.gotoGame v, SwitchAction.waitGameAck, SwitchAction.sleepMillis 100,
            SwitchAction.gotoConfig v, SwitchAction.waitConfigAck,
            SwitchAction.dropRedundant false]
    ∧ switchServerNetworkPhase ProtocolState.Game hasOld v =
      [SwitchAction.dropRedundant true]
        ++ (if hasOld then
              [SwitchAction.disconnectOldServer, SwitchAction.waitOldServerDisconnect]
            else [])
        ++ [SwitchAction.gotoConfig v, SwitchAction.waitConfigAck,
            SwitchAction.dropRedundant false] := by
  cases hasOld <;> exact ⟨rfl, rfl⟩

/-- C3: evaluation of the client packet handler at a FinishConfiguration
packet (wire id 2 in the Config state at version 764).  The handler does set
the protocol state to Game and forwards the packet, but it fires no notify:
in particular game_ack_notify is never notified, by this arm or any other
(second conjunct), so a switch blocked on game_ack_notify is never unblocked
by FinishConfiguration, contrary to the claim. -/
theorem finishConfiguration_never_fires_gameAck :
    ClientPacketHandler.handlePacket ProtocolState.Config 764 2 true =
      ⟨some ProtocolState.Game, false, false, true⟩
    ∧ ∀ (s : ProtocolState) (v pid : Int) (sw : Bool),
        (ClientPacketHandler.handlePacket s v pid sw).firesGameAckNotify = false := by
  constructor
  · decide
  · intro s v pid sw
    unfold ClientPacketHandler.handlePacket
    rcases h : PacketRegistry.getClientPacketType s v pid with _ | t
    · simp
    · cases t <;> cases sw <;> simp

/-- C4 counterexample: 764 is a supported version, yet the registry lookup
for the UnsignedClientCommand intercept in the Game state is undefined there
(its registration tuples start at version 766), refuting the claim that the
lookup is defined for every supported version, state and intercepted type. -/
theorem registry_lookup_undefined_unsignedCommand :
    PacketRegistry.getClientPacketId ProtocolState.Game 764
        ClientPacketType.UnsignedClientCommand = none
    ∧ (764 : Int) ∈ SUPPORTED_VERSIONS := by
  decide

/-- C4 amended: for every supported version, every state and every packet
type in either direction, whenever the registration table has an entry for
that state and type whose since-version covers the version (the condition
under which register_packets materializes the pair), the wire-id lookup is
defined and the inverse lookup on the resulting id returns the original
type. -/
theorem registry_registered_roundtrip :
    ∀ v ∈ SUPPORTED_VERSIONS, ∀ s : ProtocolState,
      (∀ t : ClientPacketType, clientRegistered s t v = true → clientRoundTrips s v t = true)
      ∧ (∀ t : ServerPacketType, serverRegistered s t v = true → serverRoundTrips s v t = true) := by
  decide

/-- Witness for C4 amended, at version 764, Config state,
FinishConfiguration. -/
theorem registry_registered_roundtrip_witness :
    clientRoundTrips ProtocolState.Config 764 ClientPacketType.FinishConfiguration = true :=
  (registry_registered_roundtrip 764 (by decide) ProtocolState.Config).1
    ClientPacketType.FinishConfiguration (by decide)

/-! Helper lemmas about the machine casts and the VarInt codec. -/

theorem u32OfI32_lt (i : Int) : u32OfI32 i < 2 ^ 32 := by
  unfold u32OfI32
  have h1 : 0 ≤ i % (2 : Int) ^ 32 := Int.emod_nonneg i (by norm_num)
  have h2 : i % (2 : Int) ^ 32 < (2 : Int) ^ 32 := Int.emod_lt_of_pos i (by norm_num)
  omega

theorem i32OfU32_u32OfI32 (i : Int) (hlo : -(2 ^ 31) ≤ i) (hhi : i < 2 ^ 31) :
    i32OfU32 (u32OfI32 i) = i := by
  simp only [u32OfI32, i32OfU32]
  split <;> omega

theorem u32OfI32_ofNat (n : Nat) (h : n < 2 ^ 32) : u32OfI32 (n : Int) = n := by
  unfold u32OfI32
  omega

theorem i32OfU32_small (n : Nat) (h : n < 2 ^ 31) : i32OfU32 n = (n : Int) := by
  unfold i32OfU32
  omega

theorem usizeOfI32_ofNat (n : Nat) (h : n < 2 ^ 31) : usizeOfI32 (n : Int) = n := by
  unfold usizeOfI32
  omega

theorem i32OfUsize_small (n : Nat) (h : n < 2 ^ 31) : i32OfUsize n = (n : Int) := by
  unfold i32OfUsize
  rw [Nat.mod_eq_of_lt (by omega), i32OfU32_small n h]

theorem land127_eq_mod (v : Nat) : v &&& 0x7F = v % 128 := by
  have := Nat.and_pow_two_sub_one_eq_mod v 7
  norm_num at this
  exact this

theorem land128_eq_zero (v : Nat) (h : v < 128) : v &&& 0x80 = 0 := by
  have h1 : v &&& 0x80 = v &&& 2 ^ 7 := by norm_num
  rw [h1, Nat.and_two_pow, Nat.testBit_lt_two_pow (by norm_num at h ⊢; omega)]
  simp

theorem shiftRight7_eq_div (v : Nat) : v >>> 7 = v / 128 := by
  have := Nat.shiftRight_eq_div_pow v 7
  norm_num at this
  exact this

/-- The decode loop inverts the encode loop: if the encoder produced `l`
from value `v` within its byte budget, the decoder consuming `l` from byte
position `count` with accumulator `acc` yields `acc + v * 2 ^ (count * 7)`
and leaves the rest of the stream untouched. -/
theorem VarInt.decodeAux_encodeAux :
    ∀ (budget v count acc : Nat) (l extra : List Nat),
      VarInt.encodeAux v budget = some l →
      count + budget ≤ 5 →
      v * 2 ^ (count * 7) < 2 ^ 32 →
      acc < 2 ^ (count * 7) →
      VarInt.decodeAux (l ++ extra) count 5 acc =
        some (acc + v * 2 ^ (count * 7), extra) := by
  intro budget
  induction budget with
  | zero =>
    intro v count acc l extra henc _ _ _
    simp [VarInt.encodeAux] at henc
  | succ b ih =>
    intro v count acc l extra henc hcnt hbound hacc
    by_cases h7 : v >>> 7 = 0
    · have hv128 : v < 128 := by
        rw [shiftRight7_eq_div] at h7
        omega
      have hl : l = [v &&& 0x7F] := by
        rw [VarInt.encodeAux] at henc
        simp only [h7, if_pos] at henc
        exact (Option.some.injEq _ _).mp henc |>.symm
      subst hl
      have hand : v &&& 0x7F = v := by
        rw [land127_eq_mod, Nat.mod_eq_of_lt hv128]
      have hshift : v <<< (count * 7) = v * 2 ^ (count * 7) := Nat.shiftLeft_eq v _
      have hmod : v * 2 ^ (count * 7) % 2 ^ 32 = v * 2 ^ (count * 7) :=
        Nat.mod_eq_of_lt hbound
      have hor : acc ||| v * 2 ^ (count * 7) = acc + v * 2 ^ (count * 7) := by
        have := Nat.mul_add_lt_is_or (i := count * 7) hacc v
        rw [Nat.lor_comm, Nat.mul_comm] at this
        omega
      have hcount : ¬count + 1 > 5 := by omega
      have hcont : v &&& 0x80 ≠ 0x80 := by
        rw [land128_eq_zero v hv128]
        norm_num
      simp only [List.cons_append, List.nil_append, VarInt.decodeAux, hand, hshift, hmod,
        hor, if_neg hcount, if_neg hcont]
      rfl
    · have hv128 : 128 ≤ v := by
        rw [shiftRight7_eq_div] at h7
        omega
      obtain ⟨rest, hrest, hl⟩ :
          ∃ rest, VarInt.encodeAux (v >>> 7) b = some rest
            ∧ l = ((v &&& 0x7F) ||| 0x80) :: rest := by
        rw [VarInt.encodeAux] at henc
        simp only [h7, if_neg, if_false] at henc
        cases hx : VarInt.encodeAux (v >>> 7) b with
        | none => rw [hx] at henc; simp at henc
        | some rest =>
          rw [hx] at henc
          simp only [Option.some.injEq] at henc
          exact ⟨rest, rfl, henc.symm⟩
      subst hl
      -- facts about the first transmitted byte
      have hb7 : ((v &&& 0x7F) ||| 0x80) &&& 0x7F = v % 128 := by
        rw [Nat.and_distrib_right, land127_eq_mod, land127_eq_mod,
          Nat.mod_eq_of_lt (Nat.mod_lt v (by norm_num)),
          show (128 : Nat) &&& 127 = 0 by decide, Nat.or_zero]
      have hb8 : ((v &&& 0x7F) ||| 0x80) &&& 0x80 = 0x80 := by
        rw [Nat.and_distrib_right, land128_eq_zero _ (by
          rw [land127_eq_mod]; exact Nat.mod_lt v (by norm_num)),
          show (128 : Nat) &&& 128 = 128 by decide, Nat.zero_or]
      have hmod128 : v % 128 < 128 := Nat.mod_lt v (by norm_num)
      have hle : v % 128 * 2 ^ (count * 7) ≤ v * 2 ^ (count * 7) :=
        Nat.mul_le_mul_right _ (Nat.mod_le v 128)
      have hshift : (v % 128) <<< (count * 7) = v % 128 * 2 ^ (count * 7) :=
        Nat.shiftLeft_eq _ _
      have hmod32 : v % 128 * 2 ^ (count * 7) % 2 ^ 32 = v % 128 * 2 ^ (count * 7) :=
        Nat.mod_eq_of_lt (by omega)
      have hor : acc ||| v % 128 * 2 ^ (count * 7) = acc + v % 128 * 2 ^ (count * 7) := by
        have := Nat.mul_add_lt_is_or (i := count * 7) hacc (v % 128)
        rw [Nat.lor_comm, Nat.mul_comm] at this
        omega
      have hcount : ¬count + 1 > 5 := by omega
      -- apply the induction hypothesis at the shifted position
      have hbound2 : v >>> 7 * 2 ^ ((count + 1) * 7) < 2 ^ 32 := by
        rw [shiftRight7_eq_div]
        have h1 : v / 128 * 2 ^ ((count + 1) * 7) = v / 128 * 128 * 2 ^ (count * 7) := by
          rw [Nat.mul_assoc]
          congr 1
          rw [show (count + 1) * 7 = 7 + count * 7 by ring, pow_add]
          norm_num
        rw [h1]
        have h2 : v / 128 * 128 ≤ v := Nat.div_mul_le_self v 128
        calc v / 128 * 128 * 2 ^ (count * 7) ≤ v * 2 ^ (count * 7) :=
              Nat.mul_le_mul_right _ h2
          _ < 2 ^ 32 := hbound
      have hacc2 : acc + v % 128 * 2 ^ (count * 7) < 2 ^ ((count + 1) * 7) := by
        have h1 : (2 : Nat) ^ ((count + 1) * 7) = 128 * 2 ^ (count * 7) := by
          rw [show (count + 1) * 7 = 7 + count * 7 by ring, pow_add]
          norm_num
        have h2 : v % 128 * 2 ^ (count * 7) ≤ 127 * 2 ^ (count * 7) :=
          Nat.mul_le_mul_right _ (by omega)
        omega
      have hrec := ih (v >>> 7) (count + 1) (acc + v % 128 * 2 ^ (count * 7)) rest extra
        hrest (by omega) hbound2 hacc2
      have hfinal : acc + v % 128 * 2 ^ (count * 7) + v >>> 7 * 2 ^ ((count + 1) * 7)
          = acc + v * 2 ^ (count * 7) := by
        rw [shiftRight7_eq_div]
        have h1 : v / 128 * 2 ^ ((count + 1) * 7) = 128 * (v / 128) * 2 ^ (count * 7) := by
          rw [show (count + 1) * 7 = 7 + count * 7 by ring, pow_add]
          norm_num
          ring
        have h2 : v % 128 + 128 * (v / 128) = v := Nat.mod_add_div v 128
        calc acc + v % 128 * 2 ^ (count * 7) + v / 128 * 2 ^ ((count + 1) * 7)
            = acc + (v % 128 + 128 * (v / 128)) * 2 ^ (count * 7) := by rw [h1]; ring
          _ = acc + v * 2 ^ (count * 7) := by rw [h2]
      have hstep : VarInt.decodeAux (((v &&& 0x7F ||| 0x80) :: rest) ++ extra) count 5 acc
          = VarInt.decodeAux (rest ++ extra) (count + 1) 5
              (acc + v % 128 * 2 ^ (count * 7)) := by
        simp only [List.cons_append, VarInt.decodeAux, hb7, hb8, hshift, hmod32, hor,
          if_neg hcount]
        simp
      rw [hstep, hrec, hfinal]

/-- The 5-byte encode of any u32 succeeds and its length is the base-128
digit count. -/
theorem VarInt.encodeAux5_len (v : Nat) (hv : v < 4294967296) :
    (VarInt.encodeAux v 5).map List.length =
      some (if v < 128 then 1 else if v < 16384 then 2 else if v < 2097152 then 3
            else if v < 268435456 then 4 else 5) := by
  simp only [VarInt.encodeAux, shiftRight7_eq_div, Nat.div_div_eq_div_mul]
  norm_num
  by_cases h1 : v < 128
  · simp [show v / 128 = 0 by omega, h1]
  · by_cases h2 : v < 16384
    · simp [show ¬v / 128 = 0 by omega, show v / 16384 = 0 by omega, h1, h2]
    · by_cases h3 : v < 2097152
      · simp [show ¬v / 128 = 0 by omega, show ¬v / 16384 = 0 by omega,
          show v / 2097152 = 0 by omega, h1, h2, h3]
      · by_cases h4 : v < 268435456
        · simp [show ¬v / 128 = 0 by omega, show ¬v / 16384 = 0 by omega,
            show ¬v / 2097152 = 0 by omega, show v / 268435456 = 0 by omega,
            h1, h2, h3, h4]
        · simp [show ¬v / 128 = 0 by omega, show ¬v / 16384 = 0 by omega,
            show ¬v / 2097152 = 0 by omega, show ¬v / 268435456 = 0 by omega,
            show v / 34359738368 = 0 by omega, h1, h2, h3, h4]

/-- A mask of the form 2 ^ 32 - 2 ^ k tests exactly the bits from k up to
31. -/
theorem land_high_mask_zero_iff (k : Nat) (hk : k ≤ 32) (v : Nat) (hv : v < 2 ^ 32) :
    (v &&& (2 ^ 32 - 2 ^ k) = 0) ↔ v < 2 ^ k := by
  have hrepr : (2 : Nat) ^ 32 - 2 ^ k = 2 ^ k * (2 ^ (32 - k) - 1) := by
    rw [Nat.mul_sub_one, ← pow_add]
    congr 2
    omega
  have hMbit : ∀ i : Nat, ((2 : Nat) ^ 32 - 2 ^ k).testBit i = decide (k ≤ i ∧ i < 32) := by
    intro i
    rw [hrepr, Nat.testBit_mul_pow_two, Nat.testBit_two_pow_sub_one]
    rcases le_or_lt k i with hik | hik
    · have hiff : (i - k < 32 - k) ↔ i < 32 := by omega
      simp [hik, hiff]
    · have h1 : ¬(k ≤ i) := by omega
      simp [h1, ge_iff_le]
  constructor
  · intro h
    by_contra hge
    push_neg at hge
    obtain ⟨i, hik, hbit⟩ := Nat.ge_two_pow_implies_high_bit_true hge
    have hi32 : i < 32 := by
      by_contra h32
      push_neg at h32
      have hvi : v < 2 ^ i :=
        lt_of_lt_of_le hv (Nat.pow_le_pow_right (by norm_num) h32)
      rw [Nat.testBit_lt_two_pow hvi] at hbit
      exact Bool.false_ne_true hbit
    have hand : (v &&& (2 ^ 32 - 2 ^ k)).testBit i = true := by
      rw [Nat.testBit_and, hbit, hMbit i]
      simp [hik, hi32]
    rw [h, Nat.zero_testBit] at hand
    exact Bool.false_ne_true hand
  · intro hlt
    apply Nat.eq_of_testBit_eq
    intro i
    rw [Nat.testBit_and, Nat.zero_testBit, hMbit i]
    rcases lt_or_ge i k with hik | hik
    · simp [hik, Nat.not_le.mpr hik]
    · have hvi : v < 2 ^ i :=
        lt_of_lt_of_le hlt (Nat.pow_le_pow_right (by norm_num) hik)
      simp [Nat.testBit_lt_two_pow hvi]

/-- get_size agrees with the base-128 digit count of the u32
reinterpretation. -/
theorem VarInt.getSize_eq_digits (i : Int) :
    VarInt.getSize i =
      (let v := u32OfI32 i;
       if v < 128 then 1 else if v < 16384 then 2 else if v < 2097152 then 3
       else if v < 268435456 then 4 else 5) := by
  have hv := u32OfI32_lt i
  have m1 := land_high_mask_zero_iff 7 (by norm_num) (u32OfI32 i) hv
  have m2 := land_high_mask_zero_iff 14 (by norm_num) (u32OfI32 i) hv
  have m3 := land_high_mask_zero_iff 21 (by norm_num) (u32OfI32 i) hv
  have m4 := land_high_mask_zero_iff 28 (by norm_num) (u32OfI32 i) hv
  norm_num at m1 m2 m3 m4
  simp only [VarInt.getSize]
  norm_num [m1, m2, m3, m4]

/-- Decoding an encoded u32 followed by arbitrary extra bytes returns the
value and the extra bytes. -/
theorem VarInt.decodeAux_encode_prefix (v : Nat) (hv : v < 2 ^ 32)
    (l extra : List Nat) (henc : VarInt.encodeAux v 5 = some l) :
    VarInt.decodeAux (l ++ extra) 0 5 0 = some (v, extra) := by
  have := VarInt.decodeAux_encodeAux 5 v 0 0 l extra henc (by omega)
    (by simpa using hv) (by norm_num)
  simpa using this

/-- varintOf is the successful encode of any natural below 2 ^ 31, and
decoding it back (with any suffix) returns the value. -/
theorem varintOf_spec (n : Nat) (h : n < 2 ^ 31) :
    VarInt.encode (n : Int) 5 = some (varintOf n)
    ∧ ∀ extra, VarInt.decode (varintOf n ++ extra) 5 = some ((n : Int), extra) := by
  have hv32 : n < 2 ^ 32 := by omega
  have hu : u32OfI32 (n : Int) = n := u32OfI32_ofNat n hv32
  obtain ⟨l, hl⟩ : ∃ l, VarInt.encodeAux n 5 = some l := by
    have := VarInt.encodeAux5_len n (by omega)
    cases hx : VarInt.encodeAux n 5 with
    | none => rw [hx] at this; simp at this
    | some l => exact ⟨l, rfl⟩
  have hvo : varintOf n = l := by rw [varintOf, hl]; rfl
  constructor
  · rw [VarInt.encode, hu, hl, hvo]
  · intro extra
    rw [hvo, VarInt.decode, VarInt.decodeAux_encode_prefix n hv32 l extra hl]
    simp [i32OfU32_small n h]

/-- C7: for every i32 value, decoding the 5-byte-limit encoding returns the
value with nothing left over, the number of bytes written equals
VarInt::get_size, and that size is between 1 and 5. -/
theorem varint_roundtrip_and_size (i : Int)
    (hlo : -(2 ^ 31) ≤ i) (hhi : i < 2 ^ 31) :
    VarInt.decode ((VarInt.encode i 5).getD []) 5 = some (i, [])
    ∧ (VarInt.encode i 5).map List.length = some (VarInt.getSize i)
    ∧ 1 ≤ VarInt.getSize i ∧ VarInt.getSize i ≤ 5 := by
  have hv := u32OfI32_lt i
  obtain ⟨l, hl⟩ : ∃ l, VarInt.encodeAux (u32OfI32 i) 5 = some l := by
    have := VarInt.encodeAux5_len (u32OfI32 i) (by omega)
    cases hx : VarInt.encodeAux (u32OfI32 i) 5 with
    | none => rw [hx] at this; simp at this
    | some l => exact ⟨l, rfl⟩
  have hlen := VarInt.encodeAux5_len (u32OfI32 i) (by omega)
  rw [hl] at hlen
  simp only [Option.map_some', Option.some.injEq] at hlen
  have hsize := VarInt.getSize_eq_digits i
  refine ⟨?_, ?_, ?_, ?_⟩
  · have hdec := VarInt.decodeAux_encode_prefix (u32OfI32 i) hv l [] hl
    simp only [List.append_nil] at hdec
    have hback : i32OfU32 (u32OfI32 i) = i := i32OfU32_u32OfI32 i hlo hhi
    rw [VarInt.encode, hl]
    simp only [Option.getD_some]
    rw [VarInt.decode, hdec]
    simp [hback]
  · rw [VarInt.encode, hl]
    simp only [Option.map_some', Option.some.injEq]
    rw [hlen, hsize]
  · rw [hsize]
    simp only
    split_ifs <;> omega
  · rw [hsize]
    simp only
    split_ifs <;> omega

/-- Witness for C7 at i = 300: the encoding is two bytes and round-trips. -/
theorem varint_roundtrip_and_size_witness :
    VarInt.decode ((VarInt.encode 300 5).getD []) 5 = some (300, [])
    ∧ (VarInt.encode 300 5).map List.length = some (VarInt.getSize 300)
    ∧ 1 ≤ VarInt.getSize 300 ∧ VarInt.getSize 300 ≤ 5 :=
  varint_roundtrip_and_size 300 (by norm_num) (by norm_num)

/-- Characterization of read_to_end through the SizeLimitedReader: with
positive buffer sizes and a positive limit, the read errors exactly when the
stream holds at least `remaining` bytes (the limit check fires before the
end-of-stream probe), and otherwise returns the whole stream. -/
theorem readToEnd_spec (chunk : Nat → Nat) (hchunk : ∀ i, 1 ≤ chunk i) :
    ∀ (n : Nat) (payload : List Nat), payload.length ≤ n →
      ∀ (step remaining : Nat), 1 ≤ remaining →
        readToEnd chunk step payload remaining =
          if payload.length < remaining then some payload else none := by
  intro n
  induction n with
  | zero =>
    intro payload hlen step remaining hrem
    have hnil : payload = [] := List.eq_nil_of_length_eq_zero (by omega)
    subst hnil
    rw [readToEnd, if_neg (by omega : ¬remaining = 0)]
    simp [show 0 < remaining by omega]
  | succ m ih =>
    intro payload hlen step remaining hrem
    rw [readToEnd, if_neg (by omega : ¬remaining = 0)]
    simp only
    set k := min (min remaining (chunk step)) payload.length with hk
    have hchunkstep := hchunk step
    by_cases hk0 : k = 0
    · rw [if_pos hk0]
      have hp0 : payload.length = 0 := by omega
      have hnil : payload = [] := List.eq_nil_of_length_eq_zero hp0
      subst hnil
      rw [if_pos (by omega)]
    · rw [if_neg hk0]
      have hkl : k ≤ payload.length := by omega
      have hkr : k ≤ remaining := by omega
      have hdlen : (payload.drop k).length = payload.length - k := by simp
      by_cases hcase : payload.length < remaining
      · have hrem2 : 1 ≤ remaining - k := by omega
        rw [ih (payload.drop k) (by omega) (step + 1) (remaining - k) hrem2,
          if_pos (by omega)]
        simp only [List.take_append_drop]
        rw [if_pos hcase]
      · by_cases hkrem : k = remaining
        · have hnone : readToEnd chunk (step + 1) (payload.drop k) (remaining - k) = none := by
            rw [readToEnd, if_pos (by omega)]
          rw [hnone, if_neg hcase]
        · have hrem2 : 1 ≤ remaining - k := by omega
          rw [ih (payload.drop k) (by omega) (step + 1) (remaining - k) hrem2,
            if_neg (by omega), if_neg hcase]

theorem zdecModel_zencModel (l : List Nat) : zdecModel (zencModel l) = some l := rfl

/-- C5 counterexample: a compressed frame whose zlib content is exactly
8 MiB (8 * 1024 * 1024 bytes) makes decompress fail: after the limited
reader has passed through 8 MiB, read_to_end probes again and the reader
errors before it can see the end of the stream.  The claim says every frame
with uncompressed size at most 8 MiB succeeds. -/
theorem decompress_fails_at_exactly_8MiB :
    decompress zdecModel (fun _ => 65536)
      (varintOf 8388608 ++ zencModel (List.replicate 8388608 0)) = none := by
  have hdec := (varintOf_spec 8388608 (by norm_num)).2 (zencModel (List.replicate 8388608 0))
  simp only [decompress]
  rw [hdec]
  simp only [usizeOfI32_ofNat 8388608 (by norm_num)]
  rw [if_neg (by norm_num), zdecModel_zencModel]
  show readToEnd (fun _ => 65536) 0 (List.replicate 8388608 0) (8 * 1024 * 1024) = none
  rw [readToEnd_spec (fun _ => 65536) (fun i => by norm_num)
    (List.replicate 8388608 (0 : Nat)).length (List.replicate 8388608 0) (le_refl _)
    0 (8 * 1024 * 1024) (by norm_num)]
  rw [if_neg (by rw [List.length_replicate]; omega)]

/-- C5 amended: decompress of a compressed frame fails exactly when the
uncompressed content is at least 8 MiB, and yields the full content when it
is strictly below 8 MiB.  The zlib decoder is any function `zdec` that
inflates the frame remainder to the content `P`; `chunk` gives the positive
read buffer sizes. -/
theorem decompress_size_limit (zdec : List Nat → Option (List Nat)) (chunk : Nat → Nat)
    (n : Nat) (rest P : List Nat)
    (hchunk : ∀ i, 1 ≤ chunk i) (hz : zdec rest = some P)
    (hn0 : 0 < n) (hn : n < 2 ^ 31) :
    decompress zdec chunk (varintOf n ++ rest) =
      if P.length < 8 * 1024 * 1024 then some P else none := by
  have hdec := (varintOf_spec n hn).2 rest
  simp only [decompress]
  rw [hdec]
  simp only [usizeOfI32_ofNat n (by omega)]
  rw [if_neg (by omega), hz]
  exact readToEnd_spec chunk hchunk P.length P (le_refl _) 0 (8 * 1024 * 1024) (by norm_num)

/-- Witness for C5 amended: a one-byte content inflates back. -/
theorem decompress_size_limit_witness :
    decompress zdecModel (fun _ => 1) (varintOf 1 ++ zencModel [5]) = some [5] := by
  have h := decompress_size_limit zdecModel (fun _ => 1) 1 (zencModel [5]) [5]
    (fun i => le_refl 1) rfl (by norm_num) (by norm_num)
  simpa using h

/-- C6 counterexample: with the empty payload and threshold 0 the encoder
takes the compressed branch but writes data-length 0, so the decoder treats
the zlib stream bytes as a raw payload: the round trip returns the zlib
bytes of the empty payload (nonempty, here the model stream [0x78]) instead
of the empty payload. -/
theorem compress_empty_threshold_zero_breaks_roundtrip :
    compress zencModel [] 0 = some ([0, 0x78], true)
    ∧ decompress zdecModel (fun _ => 1) [0, 0x78] = some [0x78]
    ∧ ([0x78] : List Nat) ≠ [] := by
  refine ⟨rfl, rfl, by decide⟩

/-- C6 amended: compress followed by decompress returns the payload whenever
the payload is below the threshold, or nonempty and strictly below 8 MiB
(the empty payload at threshold 0 and payloads of 8 MiB or more do not
round-trip); when the payload is below the threshold the output is exactly
varint 0 followed by the raw payload; and the encoder compresses exactly
when the payload length reaches the threshold. -/
theorem compress_decompress_roundtrip
    (zenc : List Nat → List Nat) (zdec : List Nat → Option (List Nat)) (chunk : Nat → Nat)
    (P : List Nat) (T : Int)
    (hinv : zdec (zenc P) = some P) (hchunk : ∀ i, 1 ≤ chunk i)
    (_hT : 0 ≤ T) (hP : P.length < 2 ^ 31)
    (hcond : P.length < usizeOfI32 T ∨ (0 < P.length ∧ P.length < 8 * 1024 * 1024)) :
    ∃ out flag, compress zenc P T = some (out, flag)
      ∧ decompress zdec chunk out = some P
      ∧ (P.length < usizeOfI32 T → out = 0 :: P ∧ flag = false)
      ∧ (flag = true ↔ usizeOfI32 T ≤ P.length) := by
  by_cases hlt : P.length < usizeOfI32 T
  · refine ⟨0 :: P, false, ?_, ?_, ?_, ?_⟩
    · simp only [compress, if_pos hlt]
      rfl
    · rfl
    · intro
      exact ⟨rfl, rfl⟩
    · constructor
      · intro h
        simp at h
      · intro h
        omega
  · push_neg at hlt
    rcases hcond with h | ⟨hpos, hlt8⟩
    · omega
    refine ⟨varintOf P.length ++ zenc P, true, ?_, ?_, ?_, ?_⟩
    · simp only [compress, if_neg (by omega : ¬P.length < usizeOfI32 T)]
      rw [i32OfUsize_small P.length hP, (varintOf_spec P.length hP).1]
    · simp only [decompress]
      rw [(varintOf_spec P.length hP).2 (zenc P)]
      simp only [usizeOfI32_ofNat P.length (by omega)]
      rw [if_neg (by omega), hinv]
      show readToEnd chunk 0 P (8 * 1024 * 1024) = some P
      rw [readToEnd_spec chunk hchunk P.length P (le_refl _) 0 (8 * 1024 * 1024)
        (by norm_num)]
      rw [if_pos hlt8]
    · intro h
      omega
    · simp [hlt]

/-- Witness for C6 amended at payload [65] and threshold 0 (the compressed
branch). -/
theorem compress_decompress_roundtrip_witness :
    ∃ out flag, compress zencModel [65] 0 = some (out, flag)
      ∧ decompress zdecModel (fun _ => 1) out = some [65]
      ∧ (([65] : List Nat).length < usizeOfI32 0 → out = 0 :: [65] ∧ flag = false)
      ∧ (flag = true ↔ usizeOfI32 0 ≤ ([65] : List Nat).length) :=
  compress_decompress_roundtrip zencModel zdecModel (fun _ => 1) [65] 0 rfl
    (fun i => le_refl 1) (by norm_num) (by norm_num)
    (Or.inr ⟨by norm_num, by norm_num⟩)

/-- An allowed username character occupies one UTF-8 byte. -/
theorem utf8EncodeChar_allowed_len (c : Char)
    (hc : isAsciiAlphanumeric c = true ∨ c = '_') : (utf8EncodeChar c).length = 1 := by
  have hv : c.val.toNat < 0x80 := by
    rcases hc with hc | hc
    · simp only [isAsciiAlphanumeric, Bool.or_eq_true, Bool.and_eq_true,
        decide_eq_true_eq] at hc
      omega
    · subst hc
      decide
  simp [utf8EncodeChar, hv]

/-- Every character occupies at least one UTF-8 byte. -/
theorem utf8EncodeChar_len_pos (c : Char) : 1 ≤ (utf8EncodeChar c).length := by
  simp only [utf8EncodeChar]
  split_ifs <;> simp

/-- If every character is allowed, the byte length equals the character
count. -/
theorem utf8Len_eq_length_of_allowed (t : List Char)
    (h : ∀ c ∈ t, isAsciiAlphanumeric c = true ∨ c = '_') : utf8Len t = t.length := by
  induction t with
  | nil => rfl
  | cons c t ih =>
    simp only [utf8Len, List.map_cons, List.sum_cons, List.length_cons] at ih ⊢
    rw [utf8EncodeChar_allowed_len c (h c (by simp))]
    have := ih (fun x hx => h x (by simp [hx]))
    simp only [utf8Len] at this
    omega

/-- The character count never exceeds the byte length. -/
theorem length_le_utf8Len (t : List Char) : t.length ≤ utf8Len t := by
  induction t with
  | nil => simp [utf8Len]
  | cons c t ih =>
    have h1 := utf8EncodeChar_len_pos c
    simp only [utf8Len, List.map_cons, List.sum_cons, List.length_cons] at ih ⊢
    omega

/-- C9: is_username_valid accepts exactly the strings of 1 to 16 characters
drawn from ASCII letters, digits and underscore; any other string (empty,
longer, or containing any other character) is rejected.  The 16 limit in the
source is on UTF-8 bytes, which coincides with the character count on the
accepted language. -/
theorem username_valid_iff (s : List Char) :
    is_username_valid s = true ↔
      (1 ≤ s.length ∧ s.length ≤ 16
        ∧ ∀ c ∈ s, isAsciiAlphanumeric c = true ∨ c = '_') := by
  simp only [is_username_valid, Bool.and_eq_true, Bool.not_eq_true', List.all_eq_true,
    Bool.or_eq_true, beq_iff_eq, decide_eq_true_eq]
  constructor
  · rintro ⟨⟨hne, hlen⟩, hall⟩
    have heq := utf8Len_eq_length_of_allowed s hall
    have hpos : s ≠ [] := by
      intro h
      rw [h] at hne
      simp at hne
    have : 0 < s.length := List.length_pos.mpr hpos
    exact ⟨by omega, by omega, hall⟩
  · rintro ⟨h1, h2, hall⟩
    have heq := utf8Len_eq_length_of_allowed s hall
    refine ⟨⟨?_, by omega⟩, hall⟩
    cases s with
    | nil => simp at h1
    | cons c t => simp

/-- Decoding an i32 encoding followed by arbitrary bytes. -/
theorem varint_encode_decode_i32 (i : Int) (hlo : -(2 ^ 31) ≤ i) (hhi : i < 2 ^ 31)
    (extra : List Nat) :
    VarInt.decode ((VarInt.encode i 5).getD [] ++ extra) 5 = some (i, extra) := by
  have hv := u32OfI32_lt i
  obtain ⟨l, hl⟩ : ∃ l, VarInt.encodeAux (u32OfI32 i) 5 = some l := by
    have := VarInt.encodeAux5_len (u32OfI32 i) (by omega)
    cases hx : VarInt.encodeAux (u32OfI32 i) 5 with
    | none => rw [hx] at this; simp at this
    | some l => exact ⟨l, rfl⟩
  rw [VarInt.encode, hl]
  simp only [Option.getD_some]
  rw [VarInt.decode, VarInt.decodeAux_encode_prefix (u32OfI32 i) hv l extra hl]
  simp [i32OfU32_u32OfI32 i hlo hhi]

/-- read_exact of an exact-length block. -/
theorem readBytes_exact (n : Nat) (b rest : List Nat) (h : b.length = n) :
    readBytes n (b ++ rest) = some (b, rest) := by
  subst h
  simp only [readBytes]
  rw [if_pos (by simp)]
  rw [List.take_left, List.drop_left]

/-- read_string accepts any valid-UTF-8 byte string of at most 3 times the
character limit. -/
theorem readString_ok (m : Nat) (b rest : List Nat)
    (hlen : b.length ≤ 3 * m) (h31 : b.length < 2 ^ 31) (hv : utf8Valid b = true) :
    EncodingHelper.readString (varintOf b.length ++ b ++ rest) m = some (b, rest) := by
  have hdec := (varintOf_spec b.length h31).2 (b ++ rest)
  simp only [EncodingHelper.readString]
  rw [List.append_assoc, hdec]
  simp only [usizeOfI32_ofNat b.length (by omega)]
  rw [if_neg (by omega), readBytes_exact b.length b rest rfl]
  simp only [hv, if_pos]

/-- read_string rejects any announced length above 3 times the character
limit, before reading the bytes. -/
theorem readString_reject (m L : Nat) (rest : List Nat)
    (hL : 3 * m < L) (h31 : L < 2 ^ 31) :
    EncodingHelper.readString (varintOf L ++ rest) m = none := by
  have hdec := (varintOf_spec L h31).2 rest
  simp only [EncodingHelper.readString]
  rw [hdec]
  simp only [usizeOfI32_ofNat L (by omega)]
  rw [if_pos (by omega)]

/-- C10: read_string rejects exactly on announced byte length above three
times the character limit (or bad UTF-8 or a truncated stream), so the
decoding layer accepts strings of up to 3 * m bytes for a documented
m-character field: in particular Handshake::decode accepts hosts of up to
765 bytes against its 255 limit and LoginRequest::decode accepts usernames
of up to 48 bytes against its 16 limit. -/
theorem readString_three_byte_limit :
    (∀ (m : Nat) (b rest : List Nat), b.length ≤ 3 * m → b.length < 2 ^ 31 →
      utf8Valid b = true →
      EncodingHelper.readString (varintOf b.length ++ b ++ rest) m = some (b, rest))
    ∧ (∀ (m L : Nat) (rest : List Nat), 3 * m < L → L < 2 ^ 31 →
      EncodingHelper.readString (varintOf L ++ rest) m = none)
    ∧ (∀ (ver ns : Int) (host rest : List Nat) (p1 p2 : Nat),
      -(2 ^ 31) ≤ ver → ver < 2 ^ 31 → -(2 ^ 31) ≤ ns → ns < 2 ^ 31 →
      host.length ≤ 765 → utf8Valid host = true →
      Handshake.decode ((VarInt.encode ver 5).getD [] ++ (varintOf host.length ++ host
          ++ ([p1, p2] ++ ((VarInt.encode ns 5).getD [] ++ rest))))
        = some (⟨ver, host, p1 * 256 + p2, ns⟩, rest))
    ∧ (∀ (v : Int) (name uuid rest : List Nat), 764 ≤ v → v ≤ 769 →
      name.length ≤ 48 → utf8Valid name = true → uuid.length = 16 →
      LoginRequest.decode (varintOf name.length ++ name ++ (uuid ++ rest)) v
        = some (⟨name, none, some uuid⟩, rest)) := by
  refine ⟨readString_ok, readString_reject, ?_, ?_⟩
  · intro ver ns host rest p1 p2 hlo hhi nlo nhi hhost hvu
    have h31 : host.length < 2 ^ 31 := by omega
    have hv := varint_encode_decode_i32 ver hlo hhi
      (varintOf host.length ++ host ++ (p1 :: p2 :: ((VarInt.encode ns 5).getD [] ++ rest)))
    have hs := readString_ok 255 host (p1 :: p2 :: ((VarInt.encode ns 5).getD [] ++ rest))
      (by omega) h31 hvu
    have hns := varint_encode_decode_i32 ns nlo nhi rest
    simp only [Handshake.decode, hv, hs, List.cons_append, List.nil_append, hns]
  · intro v name uuid rest hv764 hv769 hname hvu hulen
    have h31 : name.length < 2 ^ 31 := by omega
    have hs := readString_ok 16 name (uuid ++ rest) (by omega) h31 hvu
    have hpk : ¬(759 ≤ v ∧ v < 761) := by omega
    have h760 : 760 ≤ v := by omega
    have h764 : 764 ≤ v := by omega
    simp only [LoginRequest.decode, hs, hpk, h760, h764, ite_true, ite_false,
      EncodingHelper.readUuid, readBytes_exact 16 uuid rest hulen]

/-- Witness for C10 at concrete inputs: a 4-byte string is accepted at
character limit 16 and rejected at character limit 1; a handshake and a
login request decode with their full fields. -/
theorem readString_three_byte_limit_witness :
    EncodingHelper.readString (varintOf 4 ++ [65, 66, 67, 68] ++ [9]) 16
      = some ([65, 66, 67, 68], [9])
    ∧ EncodingHelper.readString (varintOf 4 ++ [65, 66, 67, 68, 9]) 1 = none
    ∧ LoginRequest.decode (varintOf 3 ++ [65, 66, 67]
        ++ (List.replicate 16 7 ++ [1])) 764
      = some (⟨[65, 66, 67], none, some (List.replicate 16 7)⟩, [1]) := by
  refine ⟨?_, ?_, ?_⟩
  · have h := readString_three_byte_limit.1 16 [65, 66, 67, 68] [9]
      (by norm_num) (by norm_num) (by decide)
    simpa using h
  · have h := readString_three_byte_limit.2.1 1 4 [65, 66, 67, 68, 9]
      (by norm_num) (by norm_num)
    simpa using h
  · have h := readString_three_byte_limit.2.2.2 764 [65, 66, 67]
      (List.replicate 16 7) [1] (by norm_num) (by norm_num) (by norm_num)
      (by decide) (by decide)
    simpa using h

/-- C8 counterexample: the claim gives the literal uuid
1d2d8d66-cf72-3bbf-9a0e-ad6a4b0a52e7 for the offline profile of "Alice",
but md5("OfflinePlayer:Alice") is 10920508d5d86eed93d292f193afe7d7, so the
derived v3 uuid starts 10920508 and the claimed literal is not the id of the
computed profile. -/
theorem offline_uuid_alice_differs_from_claim :
    offlineGameProfile ['A', 'l', 'i', 'c', 'e'] ≠
      ⟨['1', 'd', '2', 'd', '8', 'd', '6', '6', '-', 'c', 'f', '7', '2', '-', '3', 'b',
        'b', 'f', '-', '9', 'a', '0', 'e', '-', 'a', 'd', '6', 'a', '4', 'b', '0', 'a',
        '5', '2', 'e', '7'],
       ['A', 'l', 'i', 'c', 'e'], []⟩ := by
  decide

/-- C8 amended: generate_uuid equals the version-3 UUID built from
md5("OfflinePlayer:" ++ name) for every username, and an offline login with
name "Alice" produces a profile with uuid
10920508-d5d8-3eed-93d2-92f193afe7d7, name "Alice" and an empty properties
list. -/
theorem generate_uuid_is_v3_md5 :
    (∀ name : List Char, generate_uuid name = specUuidV3OfName name)
    ∧ offlineGameProfile ['A', 'l', 'i', 'c', 'e'] =
      ⟨['1', '0', '9', '2', '0', '5', '0', '8', '-', 'd', '5', 'd', '8', '-', '3', 'e',
        'e', 'd', '-', '9', '3', 'd', '2', '-', '9', '2', 'f', '1', '9', '3', 'a', 'f',
        'e', '7', 'd', '7'],
       ['A', 'l', 'i', 'c', 'e'], []⟩ := by
  constructor
  · intro name
    have hfun : ∀ (i b : Nat),
        (if i = 6 then (b &&& 0x0F) ||| 0x30 else if i = 8 then (b &&& 0x3F) ||| 0x80 else b)
          = (if i = 6 then 3 * 16 + b % 16 else if i = 8 then 2 * 64 + b % 64 else b) := by
      intro i b
      by_cases h6 : i = 6
      · subst h6
        have hmask : b &&& 15 = b % 16 := by
          have := Nat.and_pow_two_sub_one_eq_mod b 4
          norm_num at this
          exact this
        have hor := Nat.mul_add_lt_is_or (i := 4) (b := b % 16) (by omega) 3
        norm_num at hor ⊢
        rw [hmask, Nat.lor_comm]
        exact hor.symm
      · by_cases h8 : i = 8
        · subst h8
          have hmask : b &&& 63 = b % 64 := by
            have := Nat.and_pow_two_sub_one_eq_mod b 6
            norm_num at this
            exact this
          have hor := Nat.mul_add_lt_is_or (i := 7) (b := b % 64) (by omega) 1
          norm_num at hor ⊢
          rw [hmask, Nat.lor_comm]
          exact hor.symm
        · simp only [if_neg h6, if_neg h8]
    unfold generate_uuid specUuidV3OfName builderFromMd5Bytes
    simp only [hfun]
  · decide
